import Mathlib

/-!
Verification of the KChat session/room state engine: a shallow embedding of
the in-memory storage (`MemStorage` in the repository's storage module) and of
the WebSocket route handlers (`server/routes.ts`), together with proofs of the
spec's claims about capacity, expiry, cascade deletion and event emission.

Modelling conventions:
* Timestamps (`Date` values, `Date.now()`) are integer milliseconds (`Time`).
* JavaScript `Map`s are association lists with the same observable behaviour:
  `set` replaces in place or appends, `delete` removes the entry, iteration is
  in insertion order; a real `Map` has unique keys, which here is the
  `(akeys m).Nodup` hypothesis.
* The opaque `randomUUID` identifiers are `Nat`s; freshness of a generated id
  is the hypothesis that it differs from every key already present.
* JavaScript truthiness on numbers (`x || d` yields `d` when `x` is `0`) is
  modelled by `jsOrInt`.
* `EventEmitter.emit('message_deleted', …)` calls are modelled by the list of
  `StorageEvent`s a storage operation returns; an operation whose source
  contains no `emit` returns `[]`.
* WebSocket sends and room broadcasts are modelled by the list of `OutMsg`
  values a handler returns (delivery to sockets is abstracted away).
-/

namespace KChat

abbrev Time := Int

abbrev EId := Nat

/-- JS `a || b` on numbers: `0` is falsy. -/
def jsOrInt (a b : Int) : Int := if a = 0 then b else a

/-- JS `Map` lookup (`Map.get`). -/
def alookup {α : Type} : List (EId × α) → EId → Option α
  | [], _ => none
  | (k, v) :: rest, key => if k = key then some v else alookup rest key

/-- JS `Map.set`: replace in place if the key is present, else append. -/
def aset {α : Type} : List (EId × α) → EId → α → List (EId × α)
  | [], key, v => [(key, v)]
  | (k, w) :: rest, key, v =>
      if k = key then (key, v) :: rest else (k, w) :: aset rest key v

/-- JS `Map.delete`. -/
def aerase {α : Type} : List (EId × α) → EId → List (EId × α)
  | [], _ => []
  | (k, w) :: rest, key => if k = key then rest else (k, w) :: aerase rest key

abbrev akeys {α : Type} (m : List (EId × α)) : List EId := m.map Prod.fst

/-- `ChatRoom` record from the shared schema, as materialised by `MemStorage`. -/
structure ChatRoom where
  id : EId
  createdAt : Time
  expiresAt : Option Time
  isActive : Bool
  participantCount : Int
  defaultMessageTTLSeconds : Int
  deriving Repr, DecidableEq

/-- `ChatMessage` record. -/
structure ChatMessage where
  id : EId
  roomId : EId
  senderNickname : String
  content : String
  messageType : String
  encryptedData : Option String
  isViewOnce : Bool
  hasBeenViewed : Bool
  createdAt : Time
  expiresAt : Option Time
  deriving Repr, DecidableEq

/-- `ChatParticipant` record. -/
structure ChatParticipant where
  id : EId
  roomId : EId
  nickname : String
  publicKey : Option String
  isOnline : Bool
  joinedAt : Time
  deriving Repr, DecidableEq

/-- The three `Map`s owned by `MemStorage`. -/
structure MemStorage where
  chatRooms : List (EId × ChatRoom)
  chatMessages : List (EId × ChatMessage)
  chatParticipants : List (EId × ChatParticipant)
  deriving Repr, DecidableEq

/-- Events emitted on `storage.events` (only `message_deleted` exists). -/
inductive StorageEvent
  | message_deleted (messageId : EId) (roomId : EId)
  deriving Repr, DecidableEq

/-- Argument record of `createChatRoom` (`InsertChatRoom` plus the optional
`defaultMessageTTLSeconds` the routes layer smuggles in). -/
structure InsertChatRoom where
  id : EId
  expiresAt : Option Time
  isActive : Bool
  defaultMessageTTLSeconds : Option Int
  deriving Repr, DecidableEq

/-- Argument record of `createMessage`. -/
structure InsertChatMessage where
  roomId : EId
  senderNickname : String
  content : String
  messageType : String
  encryptedData : Option String
  isViewOnce : Bool
  expiresAt : Option Time
  deriving Repr, DecidableEq

/-- Argument record of `addParticipant`. -/
structure InsertChatParticipant where
  roomId : EId
  nickname : String
  publicKey : Option String
  deriving Repr, DecidableEq

/-- `MemStorage.createChatRoom`: `participantCount` starts at 0,
`defaultMessageTTLSeconds` defaults to 600 via JS `|| 600`. -/
def createChatRoom (s : MemStorage) (now : Time) (ins : InsertChatRoom) :
    ChatRoom × MemStorage :=
  let room : ChatRoom :=
    { id := ins.id
      createdAt := now
      expiresAt := ins.expiresAt
      isActive := ins.isActive
      participantCount := 0
      defaultMessageTTLSeconds :=
        match ins.defaultMessageTTLSeconds with
        | some t => jsOrInt t 600
        | none => 600 }
  (room, { s with chatRooms := aset s.chatRooms room.id room })

/-- `MemStorage.getChatRoom`. -/
def getChatRoom (s : MemStorage) (id : EId) : Option ChatRoom :=
  alookup s.chatRooms id

/-- `MemStorage.updateChatRoom` specialised to the only update the routes use,
`{ isActive }`: spread-merge the update into the room, no-op if absent. -/
def updateChatRoomIsActive (s : MemStorage) (id : EId) (b : Bool) : MemStorage :=
  match alookup s.chatRooms id with
  | none => s
  | some room =>
      { s with chatRooms := aset s.chatRooms id { room with isActive := b } }

/-- `MemStorage.deleteChatRoom`: remove the room, then every message and
participant whose `roomId` matches.  The source contains no `emit`, so the
event list is empty. -/
def deleteChatRoom (s : MemStorage) (id : EId) :
    MemStorage × List StorageEvent :=
  ({ chatRooms := aerase s.chatRooms id
     chatMessages := s.chatMessages.filter (fun kv => !(kv.2.roomId == id))
     chatParticipants := s.chatParticipants.filter (fun kv => !(kv.2.roomId == id)) },
   [])

/-- `MemStorage.calculateExpiresAtForMessage`: room default TTL when the room
exists and its TTL is truthy, else 60 s for view-once and 600 s otherwise. -/
def calculateExpiresAtForMessage (s : MemStorage) (now : Time)
    (ins : InsertChatMessage) : Option Time :=
  match alookup s.chatRooms ins.roomId with
  | some room =>
      if room.defaultMessageTTLSeconds ≠ 0 then
        some (now + room.defaultMessageTTLSeconds * 1000)
      else if ins.isViewOnce then some (now + 60 * 1000)
      else some (now + 10 * 60 * 1000)
  | none =>
      if ins.isViewOnce then some (now + 60 * 1000)
      else some (now + 10 * 60 * 1000)

/-- `MemStorage.createMessage`: a client-supplied `expiresAt` (a `Date`, always
truthy) wins; otherwise consult `calculateExpiresAtForMessage`. -/
def createMessage (s : MemStorage) (now : Time) (newId : EId)
    (ins : InsertChatMessage) : ChatMessage × MemStorage :=
  let message : ChatMessage :=
    { id := newId
      roomId := ins.roomId
      senderNickname := ins.senderNickname
      content := ins.content
      messageType := if ins.messageType = "" then "text" else ins.messageType
      encryptedData := ins.encryptedData
      isViewOnce := ins.isViewOnce
      hasBeenViewed := false
      createdAt := now
      expiresAt :=
        match ins.expiresAt with
        | some e => some e
        | none => calculateExpiresAtForMessage s now ins }
  (message, { s with chatMessages := aset s.chatMessages newId message })

/-- Insertion into a list sorted by `createdAt` ascending. -/
def insertByCreatedAt (m : ChatMessage) : List ChatMessage → List ChatMessage
  | [] => [m]
  | x :: xs =>
      if m.createdAt ≤ x.createdAt then m :: x :: xs
      else x :: insertByCreatedAt m xs

/-- The `sort((a, b) => a.createdAt - b.createdAt)` of `getMessages`. -/
def sortByCreatedAt (l : List ChatMessage) : List ChatMessage :=
  l.foldr insertByCreatedAt []

/-- `MemStorage.getMessages`: messages of the room, `createdAt` ascending. -/
def getMessages (s : MemStorage) (roomId : EId) : List ChatMessage :=
  sortByCreatedAt
    ((s.chatMessages.map Prod.snd).filter (fun m => m.roomId == roomId))

/-- `MemStorage.markMessageViewed`: set `hasBeenViewed`, and for a view-once
message delete it in the same step, emitting one `message_deleted`. -/
def markMessageViewed (s : MemStorage) (messageId : EId) :
    MemStorage × List StorageEvent :=
  match alookup s.chatMessages messageId with
  | none => (s, [])
  | some message =>
      let updated := { message with hasBeenViewed := true }
      let s1 := { s with chatMessages := aset s.chatMessages messageId updated }
      if message.isViewOnce then
        ({ s1 with chatMessages := aerase s1.chatMessages messageId },
         [StorageEvent.message_deleted messageId message.roomId])
      else (s1, [])

/-- `MemStorage.deleteMessage`: delete if present and emit one
`message_deleted`; silently do nothing if absent. -/
def deleteMessage (s : MemStorage) (messageId : EId) :
    MemStorage × List StorageEvent :=
  match alookup s.chatMessages messageId with
  | none => (s, [])
  | some message =>
      ({ s with chatMessages := aerase s.chatMessages messageId },
       [StorageEvent.message_deleted messageId message.roomId])

/-- `MemStorage.addParticipant`: insert the participant, then bump the owning
room's `participantCount` via `(room.participantCount || 0) + 1`. -/
def addParticipant (s : MemStorage) (now : Time) (newId : EId)
    (ins : InsertChatParticipant) : ChatParticipant × MemStorage :=
  let participant : ChatParticipant :=
    { id := newId
      roomId := ins.roomId
      nickname := ins.nickname
      publicKey := ins.publicKey
      isOnline := true
      joinedAt := now }
  let s1 := { s with chatParticipants := aset s.chatParticipants newId participant }
  match alookup s1.chatRooms participant.roomId with
  | none => (participant, s1)
  | some room =>
      let updatedRoom := { room with participantCount := jsOrInt room.participantCount 0 + 1 }
      (participant,
       { s1 with chatRooms := aset s1.chatRooms participant.roomId updatedRoom })

/-- `MemStorage.getParticipants`. -/
def getParticipants (s : MemStorage) (roomId : EId) : List ChatParticipant :=
  (s.chatParticipants.map Prod.snd).filter (fun p => p.roomId == roomId)

/-- `MemStorage.removeParticipant`: delete if present, then set the owning
room's count to `Math.max(0, (room.participantCount || 1) - 1)`. -/
def removeParticipant (s : MemStorage) (participantId : EId) : MemStorage :=
  match alookup s.chatParticipants participantId with
  | none => s
  | some participant =>
      let s1 := { s with chatParticipants := aerase s.chatParticipants participantId }
      match alookup s1.chatRooms participant.roomId with
      | none => s1
      | some room =>
          let updatedRoom :=
            { room with participantCount := max 0 (jsOrInt room.participantCount 1 - 1) }
          { s1 with chatRooms := aset s1.chatRooms participant.roomId updatedRoom }

/-! ### The WebSocket routes layer (`server/routes.ts`) -/

/-- The mutable per-connection fields of `ExtendedWebSocket`
(`ws.roomId`, `ws.participantId`, `ws.nickname`); never cleared by any
handler. -/
structure Conn where
  roomId : Option EId
  participantId : Option EId
  nickname : Option String
  deriving Repr, DecidableEq

/-- Messages a handler sends: either a direct `ws.send` reply to the sender
(`errorToSender`, `room_joined`) or a `broadcastToRoom` (the rest).  Delivery
to individual sockets is abstracted away; the room the broadcast targets is
recorded. -/
inductive OutMsg
  | errorToSender (error : String)
  | user_joined (roomId : EId) (participantId : EId) (participantCount : Nat)
  | room_joined (roomId : EId) (participantId : EId)
  | user_left (roomId : EId) (participantId : EId) (nickname : Option String)
  | new_message (roomId : EId) (messageId : EId)
  | message_deleted (roomId : EId) (messageId : EId)
  deriving Repr, DecidableEq

/-- The `storage.events.on('message_deleted', …)` listener: each storage event
becomes one `message_deleted` broadcast to the room. -/
def storageEvToOut : StorageEvent → OutMsg
  | .message_deleted mid rid => OutMsg.message_deleted rid mid

/-- The recurring guard `room.expiresAt && room.expiresAt < new Date()`. -/
def roomExpired (room : ChatRoom) (now : Time) : Bool :=
  match room.expiresAt with
  | some e => e < now
  | none => false

/-- The message guard `message.expiresAt && message.expiresAt < new Date()`. -/
def messageExpired (m : ChatMessage) (now : Time) : Bool :=
  match m.expiresAt with
  | some e => e < now
  | none => false

/-- The filter of `GET /api/chat/:roomId/messages`: drop expired messages and
viewed view-once messages. -/
def listValidMessages (s : MemStorage) (roomId : EId) (now : Time) :
    List ChatMessage :=
  (getMessages s roomId).filter
    (fun m => !(messageExpired m now) && !(m.isViewOnce && m.hasBeenViewed))

/-- `handleJoinRoom`: reject on unknown room, expired room, or two existing
participants; otherwise add the participant (with fresh id `newPid`), set the
connection fields, activate the room when this is the second participant, and
broadcast `user_joined` / reply `room_joined`. -/
def handleJoinRoom (s : MemStorage) (now : Time) (conn : Conn) (newPid : EId)
    (roomId : EId) (nickname : String) (publicKey : Option String) :
    MemStorage × Conn × List OutMsg :=
  match alookup s.chatRooms roomId with
  | none => (s, conn, [OutMsg.errorToSender "Room not found"])
  | some room =>
      if roomExpired room now then
        (s, conn, [OutMsg.errorToSender "Room has expired"])
      else
        let participants := getParticipants s roomId
        if participants.length ≥ 2 then
          (s, conn, [OutMsg.errorToSender "Room is full"])
        else
          let r := addParticipant s now newPid
            { roomId := roomId, nickname := nickname, publicKey := publicKey }
          let conn' : Conn :=
            { roomId := some roomId
              participantId := some r.1.id
              nickname := some nickname }
          let s2 :=
            if participants.length = 1 then updateChatRoomIsActive r.2 roomId true
            else r.2
          (s2, conn',
           [OutMsg.user_joined roomId r.1.id (participants.length + 1),
            OutMsg.room_joined roomId r.1.id])

/-- The `expiresAt` resolution inlined in `handleSendMessage`: client value,
else room default TTL, else the 60 s / 600 s fallback. -/
def resolveSendExpiresAt (s : MemStorage) (now : Time) (roomId : EId)
    (isViewOnce : Bool) (clientExpiresAt : Option Time) : Option Time :=
  match clientExpiresAt with
  | some e => some e
  | none =>
      match alookup s.chatRooms roomId with
      | some room =>
          if room.defaultMessageTTLSeconds ≠ 0 then
            some (now + room.defaultMessageTTLSeconds * 1000)
          else if isViewOnce then some (now + 60 * 1000)
          else some (now + 10 * 60 * 1000)
      | none =>
          if isViewOnce then some (now + 60 * 1000)
          else some (now + 10 * 60 * 1000)

/-- `handleSendMessage`: reject when the connection has no room association;
otherwise resolve `expiresAt`, create the message (fresh id `newMid`),
broadcast `new_message`, and if the resolved expiry is not in the future,
delete immediately (the armed future timer is abstracted away; its eventual
firing is `deleteMessage`). -/
def handleSendMessage (s : MemStorage) (now : Time) (conn : Conn) (newMid : EId)
    (content : String) (messageType : String) (encryptedData : Option String)
    (isViewOnce : Bool) (clientExpiresAt : Option Time) :
    MemStorage × List OutMsg :=
  match conn.roomId, conn.participantId with
  | some roomId, some _pid =>
      let expiresAt := resolveSendExpiresAt s now roomId isViewOnce clientExpiresAt
      let r := createMessage s now newMid
        { roomId := roomId
          senderNickname := conn.nickname.getD ""
          content := content
          messageType := messageType
          encryptedData := encryptedData
          isViewOnce := isViewOnce
          expiresAt := expiresAt }
      let out1 := [OutMsg.new_message roomId r.1.id]
      match r.1.expiresAt with
      | some e =>
          if e - now > 0 then (r.2, out1)
          else
            let d := deleteMessage r.2 r.1.id
            (d.1, out1 ++ d.2.map storageEvToOut)
      | none => (r.2, out1)
  | _, _ => (s, [OutMsg.errorToSender "Not in a room"])

/-- `handleLeaveRoom`: no-op only when the connection fields are unset;
otherwise remove the participant, broadcast `user_left` unconditionally, then
delete the room when no participants remain and deactivate it when exactly one
remains.  The connection fields are returned unchanged, as in the source,
which never clears them. -/
def handleLeaveRoom (s : MemStorage) (conn : Conn) :
    MemStorage × Conn × List OutMsg :=
  match conn.roomId, conn.participantId with
  | some roomId, some pid =>
      let s1 := removeParticipant s pid
      let out1 := [OutMsg.user_left roomId pid conn.nickname]
      let participants := getParticipants s1 roomId
      if participants.length = 0 then
        ((deleteChatRoom s1 roomId).1, conn, out1)
      else if participants.length = 1 then
        (updateChatRoomIsActive s1 roomId false, conn, out1)
      else (s1, conn, out1)
  | _, _ => (s, conn, [])

/-! ### Sequences of join/leave operations -/

/-- Server state for sequences of handler invocations: the store, the pool of
live connections, and the supply counter from which fresh participant ids are
drawn. -/
structure ServerState where
  store : MemStorage
  conns : List Conn
  nextId : Nat
  deriving Repr, DecidableEq

/-- A join or leave request arriving on connection `c`. -/
inductive RoomOp
  | join (c : Nat) (now : Time) (roomId : EId) (nickname : String)
      (publicKey : Option String)
  | leave (c : Nat)
  deriving Repr, DecidableEq

/-- Interpret one operation.  A request on a connection index that does not
exist is ignored; a join consumes one fresh id from the supply. -/
def stepOp (σ : ServerState) (op : RoomOp) : ServerState :=
  match op with
  | .join c now roomId nickname pk =>
      match σ.conns[c]? with
      | none => σ
      | some conn =>
          let r := handleJoinRoom σ.store now conn σ.nextId roomId nickname pk
          { store := r.1, conns := σ.conns.set c r.2.1, nextId := σ.nextId + 1 }
  | .leave c =>
      match σ.conns[c]? with
      | none => σ
      | some conn =>
          let r := handleLeaveRoom σ.store conn
          { store := r.1, conns := σ.conns.set c r.2.1, nextId := σ.nextId }

/-- Interpret a sequence of operations. -/
def runOps (σ : ServerState) (ops : List RoomOp) : ServerState :=
  ops.foldl stepOp σ

/-- Number of participant entries owned by room `rid`. -/
def countFor (ps : List (EId × ChatParticipant)) (rid : EId) : Nat :=
  (ps.filter (fun kv => kv.2.roomId == rid)).length

/-! ### The store invariant behind the capacity claim -/

/-- The store is well formed: map keys are unique, and every room's
`participantCount` field equals the number of its participant records, which
is at most two. -/
def StoreInv (s : MemStorage) : Prop :=
  (akeys s.chatRooms).Nodup ∧ (akeys s.chatParticipants).Nodup ∧
  ∀ kv ∈ s.chatRooms,
    kv.2.participantCount = (countFor s.chatParticipants kv.1 : Int) ∧
    countFor s.chatParticipants kv.1 ≤ 2

/-- Server-level invariant: the store is well formed and the fresh-id supply
dominates every participant key. -/
def ServerInv (σ : ServerState) : Prop :=
  StoreInv σ.store ∧ ∀ k ∈ akeys σ.store.chatParticipants, k < σ.nextId

instance : DecidablePred StoreInv := fun s => by
  unfold StoreInv; infer_instance

instance : DecidablePred ServerInv := fun σ => by
  unfold ServerInv; infer_instance

/-! ### Concrete fixture states used by the witness theorems -/

/-- A room as created by `POST /api/chat/create` (24 h expiry, default TTL). -/
def roomA : ChatRoom :=
  { id := 100, createdAt := 0, expiresAt := some 86400000, isActive := false,
    participantCount := 0, defaultMessageTTLSeconds := 600 }

/-- Store holding the single fresh room `roomA`. -/
def storeA : MemStorage :=
  { chatRooms := [(100, roomA)], chatMessages := [], chatParticipants := [] }

def partP1 : ChatParticipant :=
  { id := 1, roomId := 100, nickname := "a", publicKey := none,
    isOnline := true, joinedAt := 0 }

def partP2 : ChatParticipant :=
  { id := 2, roomId := 100, nickname := "b", publicKey := none,
    isOnline := true, joinedAt := 0 }

/-- `roomA` after two successful joins. -/
def roomFull : ChatRoom :=
  { roomA with participantCount := 2, isActive := true }

/-- Store with a full room: two participants present. -/
def storeFull : MemStorage :=
  { chatRooms := [(100, roomFull)], chatMessages := [],
    chatParticipants := [(1, partP1), (2, partP2)] }

/-- A view-once message in room 100. -/
def msgV : ChatMessage :=
  { id := 55, roomId := 100, senderNickname := "a", content := "hi",
    messageType := "text", encryptedData := none, isViewOnce := true,
    hasBeenViewed := false, createdAt := 0, expiresAt := some 60000 }

/-- The full store with the view-once message present. -/
def storeMsg : MemStorage :=
  { storeFull with chatMessages := [(55, msgV)] }

def connFresh : Conn := { roomId := none, participantId := none, nickname := none }

def connP1 : Conn := { roomId := some 100, participantId := some 1, nickname := some "a" }

def connP2 : Conn := { roomId := some 100, participantId := some 2, nickname := some "b" }

/-- Server state with one fresh room and three unassociated connections. -/
def serverA : ServerState :=
  { store := storeA, conns := [connFresh, connFresh, connFresh], nextId := 10 }

/-- An already-expired room. -/
def roomExp : ChatRoom := { roomA with id := 7, expiresAt := some 5 }

def storeExp : MemStorage :=
  { chatRooms := [(7, roomExp)], chatMessages := [], chatParticipants := [] }

/-- A room whose `defaultMessageTTLSeconds` is 30. -/
def roomTTL30 : ChatRoom := { roomA with defaultMessageTTLSeconds := 30 }

def storeTTL30 : MemStorage :=
  { chatRooms := [(100, roomTTL30)], chatMessages := [], chatParticipants := [] }

/-- A room whose `participantCount` field is zero while a participant record
for it still exists (exercises the `Math.max(0, …)` floor). -/
def roomZero : ChatRoom :=
  { id := 5, createdAt := 0, expiresAt := none, isActive := false,
    participantCount := 0, defaultMessageTTLSeconds := 600 }

def partFloor : ChatParticipant :=
  { id := 9, roomId := 5, nickname := "x", publicKey := none,
    isOnline := true, joinedAt := 0 }

def storeFloor : MemStorage :=
  { chatRooms := [(5, roomZero)], chatMessages := [],
    chatParticipants := [(9, partFloor)] }

/-! ### Association-list lemmas -/

theorem jsOrInt_zero_right (a : Int) : jsOrInt a 0 = a := by
  unfold jsOrInt; split <;> simp_all

theorem jsOrInt_of_ne {a : Int} (h : a ≠ 0) (b : Int) : jsOrInt a b = a := by
  unfold jsOrInt; simp [h]

theorem alookup_aset_self {α : Type} (m : List (EId × α)) (k : EId) (v : α) :
    alookup (aset m k v) k = some v := by
  induction m with
  | nil => simp [aset, alookup]
  | cons hd tl ih =>
      obtain ⟨k0, w⟩ := hd
      by_cases h : k0 = k <;> simp [aset, alookup, h, ih]

theorem alookup_aset_ne {α : Type} (m : List (EId × α)) {k k' : EId} (v : α)
    (h : k' ≠ k) : alookup (aset m k v) k' = alookup m k' := by
  induction m with
  | nil => simp [aset, alookup, Ne.symm h]
  | cons hd tl ih =>
      obtain ⟨k0, w⟩ := hd
      by_cases h0 : k0 = k
      · subst h0
        simp [aset, alookup, Ne.symm h]
      · simp only [aset, if_neg h0, alookup]
        by_cases h1 : k0 = k' <;> simp [h1, ih]

theorem alookup_eq_none {α : Type} (m : List (EId × α)) (k : EId) :
    alookup m k = none ↔ k ∉ akeys m := by
  induction m with
  | nil => simp [alookup, akeys]
  | cons hd tl ih =>
      obtain ⟨k0, w⟩ := hd
      by_cases h : k0 = k
      · subst h; simp [alookup, akeys]
      · simp [alookup, akeys, h, ih, Ne.symm h]

theorem alookup_some_mem {α : Type} {m : List (EId × α)} {k : EId} {v : α}
    (h : alookup m k = some v) : (k, v) ∈ m := by
  induction m with
  | nil => simp [alookup] at h
  | cons hd tl ih =>
      obtain ⟨k0, w⟩ := hd
      by_cases h0 : k0 = k
      · subst h0; simp [alookup] at h; simp [h]
      · simp [alookup, h0] at h
        exact List.mem_cons_of_mem _ (ih h)

theorem akeys_aset_of_mem {α : Type} {m : List (EId × α)} {k : EId} (v : α)
    (h : k ∈ akeys m) : akeys (aset m k v) = akeys m := by
  induction m with
  | nil => simp [akeys] at h
  | cons hd tl ih =>
      obtain ⟨k0, w⟩ := hd
      by_cases h0 : k0 = k
      · simp [aset, akeys, h0]
      · have htl : k ∈ akeys tl := by
          rcases List.mem_cons.mp h with h1 | h1
          · exact absurd h1.symm h0
          · exact h1
        simp only [aset, if_neg h0, akeys, List.map_cons]
        exact congrArg (k0 :: ·) (ih htl)

theorem akeys_aset_of_not_mem {α : Type} {m : List (EId × α)} {k : EId} (v : α)
    (h : k ∉ akeys m) : akeys (aset m k v) = akeys m ++ [k] := by
  induction m with
  | nil => simp [aset, akeys]
  | cons hd tl ih =>
      obtain ⟨k0, w⟩ := hd
      have h1 : k0 ≠ k := fun he => h (by rw [← he]; exact List.mem_cons_self k0 (akeys tl))
      have h2 : k ∉ akeys tl := fun he => h (List.mem_cons_of_mem _ he)
      simp only [aset, if_neg h1, akeys, List.map_cons, List.cons_append]
      exact congrArg (k0 :: ·) (ih h2)

theorem nodup_akeys_aset {α : Type} {m : List (EId × α)} (k : EId) (v : α)
    (h : (akeys m).Nodup) : (akeys (aset m k v)).Nodup := by
  by_cases hk : k ∈ akeys m
  · rwa [akeys_aset_of_mem v hk]
  · rw [akeys_aset_of_not_mem v hk]
    simp [List.nodup_append, h, hk]

theorem aerase_sublist {α : Type} (m : List (EId × α)) (k : EId) :
    (aerase m k).Sublist m := by
  induction m with
  | nil => simp [aerase]
  | cons hd tl ih =>
      obtain ⟨k0, w⟩ := hd
      by_cases h0 : k0 = k
      · simp only [aerase, if_pos h0]
        exact List.sublist_cons_self _ _
      · simp only [aerase, if_neg h0]
        exact List.Sublist.cons₂ _ ih

theorem nodup_akeys_aerase {α : Type} {m : List (EId × α)} (k : EId)
    (h : (akeys m).Nodup) : (akeys (aerase m k)).Nodup :=
  ((aerase_sublist m k).map Prod.fst).nodup h

theorem nodup_akeys_filter {α : Type} {m : List (EId × α)} (q : EId × α → Bool)
    (h : (akeys m).Nodup) : (akeys (m.filter q)).Nodup :=
  ((m.filter_sublist).map Prod.fst).nodup h

theorem mem_aset {α : Type} {m : List (EId × α)} {k : EId} {v : α}
    {kv : EId × α} (hnd : (akeys m).Nodup) :
    kv ∈ aset m k v ↔ (kv ∈ m ∧ kv.1 ≠ k) ∨ kv = (k, v) := by
  induction m with
  | nil =>
      simp [aset]
  | cons hd tl ih =>
      obtain ⟨k0, w⟩ := hd
      have hnd' := List.nodup_cons.mp hnd
      by_cases h0 : k0 = k
      · subst h0
        have htl : kv ∈ tl → kv.1 ≠ k0 := fun hmem heq =>
          hnd'.1 (List.mem_map.mpr ⟨kv, hmem, heq⟩)
        constructor
        · intro h
          rcases List.mem_cons.mp (by simpa only [aset, if_pos rfl] using h) with h | h
          · right; simp [h]
          · exact Or.inl ⟨List.mem_cons_of_mem _ h, htl h⟩
        · intro h
          rcases h with ⟨hmem, hne⟩ | h
          · rcases List.mem_cons.mp hmem with h | h
            · exact absurd (by simp [h]) hne
            · simp only [aset, if_pos rfl]
              exact List.mem_cons_of_mem _ h
          · simp only [aset, if_pos rfl, h]
            exact List.mem_cons_self _ _
      · constructor
        · intro h
          rcases List.mem_cons.mp (by simpa only [aset, if_neg h0] using h) with h | h
          · exact Or.inl ⟨by simp [h], by simp [h, h0]⟩
          · rcases (ih hnd'.2).mp h with ⟨hmem, hne⟩ | h
            · exact Or.inl ⟨List.mem_cons_of_mem _ hmem, hne⟩
            · exact Or.inr h
        · intro h
          simp only [aset, if_neg h0]
          rcases h with ⟨hmem, hne⟩ | h
          · rcases List.mem_cons.mp hmem with h | h
            · exact h ▸ List.mem_cons_self _ _
            · exact List.mem_cons_of_mem _ ((ih hnd'.2).mpr (Or.inl ⟨h, hne⟩))
          · exact List.mem_cons_of_mem _ ((ih hnd'.2).mpr (Or.inr h))

theorem mem_aerase {α : Type} {m : List (EId × α)} {k : EId} {kv : EId × α}
    (hnd : (akeys m).Nodup) :
    kv ∈ aerase m k ↔ kv ∈ m ∧ kv.1 ≠ k := by
  induction m with
  | nil => simp [aerase]
  | cons hd tl ih =>
      obtain ⟨k0, w⟩ := hd
      have hnd' := List.nodup_cons.mp hnd
      by_cases h0 : k0 = k
      · subst h0
        have htl : kv ∈ tl → kv.1 ≠ k0 := fun hmem heq =>
          hnd'.1 (List.mem_map.mpr ⟨kv, hmem, heq⟩)
        constructor
        · intro h
          have h' : kv ∈ tl := by simpa only [aerase, if_pos rfl] using h
          exact ⟨List.mem_cons_of_mem _ h', htl h'⟩
        · intro ⟨hmem, hne⟩
          rcases List.mem_cons.mp hmem with h | h
          · exact absurd (by simp [h]) hne
          · simpa only [aerase, if_pos rfl] using h
      · constructor
        · intro h
          rcases List.mem_cons.mp (by simpa only [aerase, if_neg h0] using h) with h | h
          · exact ⟨by simp [h], by simp [h, h0]⟩
          · exact ⟨List.mem_cons_of_mem _ ((ih hnd'.2).mp h).1, ((ih hnd'.2).mp h).2⟩
        · intro ⟨hmem, hne⟩
          simp only [aerase, if_neg h0]
          rcases List.mem_cons.mp hmem with h | h
          · exact h ▸ List.mem_cons_self _ _
          · exact List.mem_cons_of_mem _ ((ih hnd'.2).mpr ⟨h, hne⟩)

theorem alookup_aerase_self {α : Type} {m : List (EId × α)} (k : EId)
    (hnd : (akeys m).Nodup) : alookup (aerase m k) k = none := by
  rw [alookup_eq_none]
  intro hmem
  rcases List.mem_map.mp hmem with ⟨kv, hkv, hfst⟩
  exact ((mem_aerase hnd).mp hkv).2 hfst

theorem alookup_aerase_ne {α : Type} (m : List (EId × α)) {k k' : EId}
    (h : k' ≠ k) : alookup (aerase m k) k' = alookup m k' := by
  induction m with
  | nil => simp [aerase]
  | cons hd tl ih =>
      obtain ⟨k0, w⟩ := hd
      by_cases h0 : k0 = k
      · subst h0; simp [aerase, alookup, Ne.symm h]
      · by_cases h1 : k0 = k' <;> simp [aerase, alookup, h0, h1, ih, h]

/-! ### Counting lemmas -/

theorem countFor_nil (rid : EId) : countFor [] rid = 0 := rfl

theorem countFor_cons (k0 : EId) (w : ChatParticipant)
    (tl : List (EId × ChatParticipant)) (rid : EId) :
    countFor ((k0, w) :: tl) rid =
      (if w.roomId == rid then 1 else 0) + countFor tl rid := by
  by_cases hw : w.roomId == rid <;>
    simp [countFor, List.filter_cons, hw] <;> omega

theorem countFor_aset_fresh {ps : List (EId × ChatParticipant)} {k : EId}
    (v : ChatParticipant) (h : k ∉ akeys ps) (rid : EId) :
    countFor (aset ps k v) rid =
      countFor ps rid + (if v.roomId == rid then 1 else 0) := by
  induction ps with
  | nil =>
      show countFor [(k, v)] rid = countFor [] rid + _
      rw [countFor_cons, countFor_nil]
      omega
  | cons hd tl ih =>
      obtain ⟨k0, w⟩ := hd
      have h1 : k0 ≠ k := fun he => h (by rw [← he]; exact List.mem_cons_self k0 (akeys tl))
      have h2 : k ∉ akeys tl := fun he => h (List.mem_cons_of_mem _ he)
      have ha : aset ((k0, w) :: tl) k v = (k0, w) :: aset tl k v := by
        simp [aset, h1]
      rw [ha, countFor_cons, countFor_cons, ih h2]
      omega

theorem countFor_aerase {ps : List (EId × ChatParticipant)} {k : EId}
    {p : ChatParticipant} (h : alookup ps k = some p) (rid : EId) :
    countFor ps rid =
      countFor (aerase ps k) rid + (if p.roomId == rid then 1 else 0) := by
  induction ps with
  | nil => simp [alookup] at h
  | cons hd tl ih =>
      obtain ⟨k0, w⟩ := hd
      by_cases h0 : k0 = k
      · have hw : w = p := by simpa [alookup, h0] using h
        subst hw
        have ha : aerase ((k0, w) :: tl) k = tl := by simp [aerase, h0]
        rw [ha, countFor_cons]
        omega
      · have h' : alookup tl k = some p := by simpa [alookup, h0] using h
        have ha : aerase ((k0, w) :: tl) k = (k0, w) :: aerase tl k := by
          simp [aerase, h0]
        have := ih h'
        rw [ha, countFor_cons, countFor_cons]
        omega

theorem countFor_filter_ne {ps : List (EId × ChatParticipant)} {id rid : EId}
    (h : rid ≠ id) :
    countFor (ps.filter (fun kv => !(kv.2.roomId == id))) rid = countFor ps rid := by
  induction ps with
  | nil => rfl
  | cons hd tl ih =>
      obtain ⟨k0, w⟩ := hd
      by_cases hd1 : w.roomId = id
      · have hq : (!(w.roomId == id)) = false := by simp [hd1]
        have hr : (w.roomId == rid) = false := by
          simp only [beq_eq_false_iff_ne, ne_eq, hd1]
          exact fun he => h he.symm
        rw [List.filter_cons]
        simp only [hq, Bool.false_eq_true, if_false]
        rw [ih, countFor_cons, hr]
        simp
      · have hq : (!(w.roomId == id)) = true := by simp [hd1]
        rw [List.filter_cons]
        simp only [hq, if_true]
        rw [countFor_cons, countFor_cons, ih]

theorem countFor_pos {ps : List (EId × ChatParticipant)} {k : EId}
    {p : ChatParticipant} (h : alookup ps k = some p) :
    1 ≤ countFor ps p.roomId := by
  have := countFor_aerase h p.roomId
  simp at this
  omega

theorem length_getParticipants (s : MemStorage) (rid : EId) :
    (getParticipants s rid).length = countFor s.chatParticipants rid := by
  show ((s.chatParticipants.map Prod.snd).filter _).length = _
  induction s.chatParticipants with
  | nil => rfl
  | cons hd tl ih =>
      obtain ⟨k0, w⟩ := hd
      rw [List.map_cons, List.filter_cons, countFor_cons]
      by_cases hr : w.roomId == rid
      · simp only [hr, if_true, List.length_cons, ih]
        omega
      · simp only [hr, Bool.false_eq_true, if_false, ih]
        omega

/-! ### Invariant preservation -/

theorem mem_akeys_aset {α : Type} {m : List (EId × α)} {k : EId} {v : α}
    {k' : EId} (h : k' ∈ akeys (aset m k v)) : k' ∈ akeys m ∨ k' = k := by
  by_cases hk : k ∈ akeys m
  · rw [akeys_aset_of_mem v hk] at h
    exact Or.inl h
  · rw [akeys_aset_of_not_mem v hk] at h
    rcases List.mem_append.mp h with h | h
    · exact Or.inl h
    · exact Or.inr (by simpa using h)

theorem mem_akeys_of_mem {α : Type} {m : List (EId × α)} {kv : EId × α}
    (h : kv ∈ m) : kv.1 ∈ akeys m := List.mem_map_of_mem Prod.fst h

theorem not_mem_akeys_of_lookup_none {α : Type} {m : List (EId × α)} {k : EId}
    (h : alookup m k = none) : k ∉ akeys m := (alookup_eq_none m k).mp h

theorem StoreInv_addParticipant (s : MemStorage) (now : Time) (newId : EId)
    (ins : InsertChatParticipant) (hInv : StoreInv s)
    (hfresh : newId ∉ akeys s.chatParticipants)
    (hcap : countFor s.chatParticipants ins.roomId ≤ 1) :
    StoreInv (addParticipant s now newId ins).2 := by
  obtain ⟨hndRooms, hndPs, hcount⟩ := hInv
  rcases hr : alookup s.chatRooms ins.roomId with _ | room
  · simp only [addParticipant, hr]
    refine ⟨hndRooms, nodup_akeys_aset _ _ hndPs, ?_⟩
    intro kv hkv
    have hne : kv.1 ≠ ins.roomId := by
      intro he
      exact not_mem_akeys_of_lookup_none hr (he ▸ mem_akeys_of_mem hkv)
    have hbeq : (ins.roomId == kv.1) = false := by
      simp only [beq_eq_false_iff_ne, ne_eq]
      exact fun he => hne he.symm
    rw [countFor_aset_fresh _ hfresh kv.1]
    simp only [hbeq, Bool.false_eq_true, if_false, Nat.add_zero]
    exact hcount kv hkv
  · simp only [addParticipant, hr]
    refine ⟨nodup_akeys_aset _ _ hndRooms, nodup_akeys_aset _ _ hndPs, ?_⟩
    intro kv hkv
    rcases (mem_aset hndRooms).mp hkv with ⟨hmem, hne⟩ | heq
    · have hbeq : (ins.roomId == kv.1) = false := by
        simp only [beq_eq_false_iff_ne, ne_eq]
        exact fun he => hne he.symm
      rw [countFor_aset_fresh _ hfresh kv.1]
      simp only [hbeq, Bool.false_eq_true, if_false, Nat.add_zero]
      exact hcount kv hmem
    · have hold := hcount (ins.roomId, room) (alookup_some_mem hr)
      rw [heq]
      rw [countFor_aset_fresh _ hfresh ins.roomId]
      simp only [beq_self_eq_true, if_true]
      simp only [jsOrInt_zero_right]
      constructor
      · have h1 : room.participantCount = (countFor s.chatParticipants ins.roomId : Int) :=
          hold.1
      -- the new field is the old count plus one
        rw [h1]
        push_cast
        ring
      · simp only at hold
        omega

theorem StoreInv_removeParticipant {s : MemStorage} (pid : EId)
    (hInv : StoreInv s) : StoreInv (removeParticipant s pid) := by
  obtain ⟨hndRooms, hndPs, hcount⟩ := hInv
  rcases hp : alookup s.chatParticipants pid with _ | p
  · simp only [removeParticipant, hp]
    exact ⟨hndRooms, hndPs, hcount⟩
  · rcases hr : alookup s.chatRooms p.roomId with _ | room
    · simp only [removeParticipant, hp, hr]
      refine ⟨hndRooms, nodup_akeys_aerase _ hndPs, ?_⟩
      intro kv hkv
      have hne : kv.1 ≠ p.roomId := by
        intro he
        exact not_mem_akeys_of_lookup_none hr (he ▸ mem_akeys_of_mem hkv)
      have hbeq : (p.roomId == kv.1) = false := by
        simp only [beq_eq_false_iff_ne, ne_eq]
        exact fun he => hne he.symm
      have heq := countFor_aerase hp kv.1
      simp only [hbeq, Bool.false_eq_true, if_false, Nat.add_zero] at heq
      rw [← heq]
      exact hcount kv hkv
    · simp only [removeParticipant, hp, hr]
      refine ⟨nodup_akeys_aset _ _ hndRooms, nodup_akeys_aerase _ hndPs, ?_⟩
      intro kv hkv
      rcases (mem_aset hndRooms).mp hkv with ⟨hmem, hne⟩ | heq
      · have hbeq : (p.roomId == kv.1) = false := by
          simp only [beq_eq_false_iff_ne, ne_eq]
          exact fun he => hne he.symm
        have heqc := countFor_aerase hp kv.1
        simp only [hbeq, Bool.false_eq_true, if_false, Nat.add_zero] at heqc
        rw [← heqc]
        exact hcount kv hmem
      · have hold := hcount (p.roomId, room) (alookup_some_mem hr)
        have hpos := countFor_pos hp
        have heqc := countFor_aerase hp p.roomId
        simp only [beq_self_eq_true, if_true] at heqc
        rw [heq]
        simp only
        have hcnt : room.participantCount =
            (countFor s.chatParticipants p.roomId : Int) := hold.1
        have hne0 : room.participantCount ≠ 0 := by
          rw [hcnt]
          omega
        rw [jsOrInt_of_ne hne0]
        have hle : countFor s.chatParticipants p.roomId ≤ 2 := hold.2
        constructor
        · rw [hcnt]
          omega
        · omega

theorem StoreInv_deleteChatRoom {s : MemStorage} {id : EId}
    (hInv : StoreInv s) : StoreInv (deleteChatRoom s id).1 := by
  obtain ⟨hndRooms, hndPs, hcount⟩ := hInv
  simp only [deleteChatRoom]
  refine ⟨nodup_akeys_aerase _ hndRooms, nodup_akeys_filter _ hndPs, ?_⟩
  intro kv hkv
  obtain ⟨hmem, hne⟩ := (mem_aerase hndRooms).mp hkv
  rw [countFor_filter_ne hne]
  exact hcount kv hmem

theorem StoreInv_updateChatRoomIsActive {s : MemStorage} {id : EId} {b : Bool}
    (hInv : StoreInv s) : StoreInv (updateChatRoomIsActive s id b) := by
  obtain ⟨hndRooms, hndPs, hcount⟩ := hInv
  rcases hr : alookup s.chatRooms id with _ | room
  · simp only [updateChatRoomIsActive, hr]
    exact ⟨hndRooms, hndPs, hcount⟩
  · simp only [updateChatRoomIsActive, hr]
    refine ⟨nodup_akeys_aset _ _ hndRooms, hndPs, ?_⟩
    intro kv hkv
    rcases (mem_aset hndRooms).mp hkv with ⟨hmem, _⟩ | heq
    · exact hcount kv hmem
    · have hold := hcount (id, room) (alookup_some_mem hr)
      rw [heq]
      exact hold

theorem StoreInv_handleJoinRoom {s : MemStorage} {now : Time} {conn : Conn}
    {newPid roomId : EId} {nickname : String} {pk : Option String}
    (hInv : StoreInv s) (hfresh : newPid ∉ akeys s.chatParticipants) :
    StoreInv (handleJoinRoom s now conn newPid roomId nickname pk).1 := by
  rcases hr : alookup s.chatRooms roomId with _ | room
  · simpa only [handleJoinRoom, hr] using hInv
  · by_cases hexp : roomExpired room now
    · simp only [handleJoinRoom, hr, hexp, if_true]
      exact hInv
    · by_cases hlen : (getParticipants s roomId).length ≥ 2
      · simp only [handleJoinRoom, hr, hexp, Bool.false_eq_true, if_false, hlen, if_true]
        exact hInv
      · have hcap : countFor s.chatParticipants roomId ≤ 1 := by
          rw [← length_getParticipants]
          omega
        have hadd :=
          StoreInv_addParticipant s now newPid ⟨roomId, nickname, pk⟩
            hInv hfresh hcap
        simp only [handleJoinRoom, hr, hexp, Bool.false_eq_true, if_false, hlen]
        by_cases h1 : (getParticipants s roomId).length = 1 <;>
          simp only [h1, if_true, if_false] <;>
          first
            | exact StoreInv_updateChatRoomIsActive hadd
            | exact hadd

theorem StoreInv_handleLeaveRoom {s : MemStorage} {conn : Conn}
    (hInv : StoreInv s) : StoreInv (handleLeaveRoom s conn).1 := by
  rcases hc : conn.roomId with _ | rid
  · simpa only [handleLeaveRoom, hc] using hInv
  rcases hp : conn.participantId with _ | pid
  · simpa only [handleLeaveRoom, hc, hp] using hInv
  have h1 := StoreInv_removeParticipant pid hInv
  simp only [handleLeaveRoom, hc, hp]
  by_cases h0 : (getParticipants (removeParticipant s pid) rid).length = 0 <;>
    by_cases h2 : (getParticipants (removeParticipant s pid) rid).length = 1 <;>
    simp only [h0, h2, if_true, if_false] <;>
    first
      | exact StoreInv_deleteChatRoom h1
      | exact StoreInv_updateChatRoomIsActive h1
      | exact h1

theorem updateChatRoomIsActive_chatParticipants (s : MemStorage) (id : EId)
    (b : Bool) :
    (updateChatRoomIsActive s id b).chatParticipants = s.chatParticipants := by
  unfold updateChatRoomIsActive
  rcases h : alookup s.chatRooms id with _ | room <;> simp [h]

theorem addParticipant_chatParticipants (s : MemStorage) (now : Time)
    (newId : EId) (ins : InsertChatParticipant) :
    (addParticipant s now newId ins).2.chatParticipants =
      aset s.chatParticipants newId
        { id := newId, roomId := ins.roomId, nickname := ins.nickname,
          publicKey := ins.publicKey, isOnline := true, joinedAt := now } := by
  unfold addParticipant
  rcases h : alookup s.chatRooms ins.roomId with _ | room <;> simp [h]

theorem handleJoinRoom_participants_keys {s : MemStorage} {now : Time}
    {conn : Conn} {newPid roomId : EId} {nickname : String} {pk : Option String} :
    ∀ k ∈ akeys (handleJoinRoom s now conn newPid roomId nickname pk).1.chatParticipants,
      k ∈ akeys s.chatParticipants ∨ k = newPid := by
  intro k hk
  rcases hr : alookup s.chatRooms roomId with _ | room
  · simp only [handleJoinRoom, hr] at hk
    exact Or.inl hk
  · by_cases hexp : roomExpired room now
    · simp only [handleJoinRoom, hr, hexp, if_true] at hk
      exact Or.inl hk
    · by_cases hlen : (getParticipants s roomId).length ≥ 2
      · simp only [handleJoinRoom, hr, hexp, Bool.false_eq_true, if_false, hlen,
          if_true] at hk
        exact Or.inl hk
      · simp only [handleJoinRoom, hr, hexp, Bool.false_eq_true, if_false,
          hlen] at hk
        by_cases h1 : (getParticipants s roomId).length = 1 <;>
          simp only [h1, if_true, if_false, updateChatRoomIsActive_chatParticipants,
            addParticipant_chatParticipants] at hk <;>
          exact mem_akeys_aset hk

theorem removeParticipant_participants_sublist (s : MemStorage) (pid : EId) :
    ((removeParticipant s pid).chatParticipants).Sublist s.chatParticipants := by
  unfold removeParticipant
  rcases hp : alookup s.chatParticipants pid with _ | p
  · simp [hp]
  · rcases hr : alookup s.chatRooms p.roomId with _ | room <;>
      simp [hp, hr] <;> exact aerase_sublist _ _

theorem handleLeaveRoom_participants_sublist (s : MemStorage) (conn : Conn) :
    ((handleLeaveRoom s conn).1.chatParticipants).Sublist s.chatParticipants := by
  rcases hc : conn.roomId with _ | rid
  · simp only [handleLeaveRoom, hc]
    exact List.Sublist.refl _
  rcases hp : conn.participantId with _ | pid
  · simp only [handleLeaveRoom, hc, hp]
    exact List.Sublist.refl _
  simp only [handleLeaveRoom, hc, hp]
  have hrem := removeParticipant_participants_sublist s pid
  by_cases h0 : (getParticipants (removeParticipant s pid) rid).length = 0
  · rw [if_pos h0]
    show ((removeParticipant s pid).chatParticipants.filter _).Sublist
      s.chatParticipants
    exact (List.filter_sublist _).trans hrem
  · rw [if_neg h0]
    by_cases h2 : (getParticipants (removeParticipant s pid) rid).length = 1
    · rw [if_pos h2]
      show ((updateChatRoomIsActive (removeParticipant s pid) rid
          false).chatParticipants).Sublist s.chatParticipants
      rw [updateChatRoomIsActive_chatParticipants]
      exact hrem
    · rw [if_neg h2]
      exact hrem

theorem ServerInv_stepOp {σ : ServerState} (op : RoomOp) (h : ServerInv σ) :
    ServerInv (stepOp σ op) := by
  obtain ⟨hs, hkeys⟩ := h
  cases op with
  | join c now roomId nickname pk =>
      rcases hc : σ.conns[c]? with _ | conn
      · simp only [stepOp, hc]
        exact ⟨hs, hkeys⟩
      · simp only [stepOp, hc]
        have hfresh : σ.nextId ∉ akeys σ.store.chatParticipants :=
          fun hmem => Nat.lt_irrefl _ (hkeys _ hmem)
        refine ⟨StoreInv_handleJoinRoom hs hfresh, ?_⟩
        intro k hk
        rcases handleJoinRoom_participants_keys k hk with h | h
        · exact Nat.lt_succ_of_lt (hkeys k h)
        · rw [h]
          exact Nat.lt_succ_self _
  | leave c =>
      rcases hc : σ.conns[c]? with _ | conn
      · simp only [stepOp, hc]
        exact ⟨hs, hkeys⟩
      · simp only [stepOp, hc]
        refine ⟨StoreInv_handleLeaveRoom hs, ?_⟩
        intro k hk
        exact hkeys k
          (((handleLeaveRoom_participants_sublist _ _).map Prod.fst).subset hk)

theorem ServerInv_runOps {σ : ServerState} (ops : List RoomOp)
    (h : ServerInv σ) : ServerInv (runOps σ ops) := by
  induction ops generalizing σ with
  | nil => exact h
  | cons op rest ih => exact ih (ServerInv_stepOp op h)

theorem mem_insertByCreatedAt {m a : ChatMessage} {l : List ChatMessage} :
    a ∈ insertByCreatedAt m l ↔ a = m ∨ a ∈ l := by
  induction l with
  | nil => simp [insertByCreatedAt]
  | cons x xs ih =>
      by_cases h : m.createdAt ≤ x.createdAt
      · simp [insertByCreatedAt, h]
      · simp [insertByCreatedAt, h, ih]
        tauto

theorem mem_sortByCreatedAt {a : ChatMessage} {l : List ChatMessage} :
    a ∈ sortByCreatedAt l ↔ a ∈ l := by
  induction l with
  | nil => simp [sortByCreatedAt]
  | cons x xs ih =>
      show a ∈ insertByCreatedAt x (sortByCreatedAt xs) ↔ _
      rw [mem_insertByCreatedAt, ih]
      simp

theorem mem_aset_weak {α : Type} {m : List (EId × α)} {k : EId} {v : α}
    {kv : EId × α} (h : kv ∈ aset m k v) : kv ∈ m ∨ kv = (k, v) := by
  induction m with
  | nil => simpa [aset] using h
  | cons hd tl ih =>
      obtain ⟨k0, w⟩ := hd
      by_cases h0 : k0 = k
      · rcases List.mem_cons.mp (by simpa only [aset, if_pos h0] using h) with h1 | h1
        · exact Or.inr h1
        · exact Or.inl (List.mem_cons_of_mem _ h1)
      · rcases List.mem_cons.mp (by simpa only [aset, if_neg h0] using h) with h1 | h1
        · exact Or.inl (by simp [h1])
        · rcases ih h1 with h2 | h2
          · exact Or.inl (List.mem_cons_of_mem _ h2)
          · exact Or.inr h2

theorem filter_roomId_eq_self {ps : List (EId × ChatParticipant)} {rid : EId}
    (h : countFor ps rid = 0) :
    ps.filter (fun kv => !(kv.2.roomId == rid)) = ps := by
  induction ps with
  | nil => rfl
  | cons hd tl ih =>
      obtain ⟨k0, w⟩ := hd
      rw [countFor_cons] at h
      by_cases hw : w.roomId == rid
      · simp [hw] at h
      · have htl : countFor tl rid = 0 := by
          simp only [hw, Bool.false_eq_true, if_false] at h
          omega
        simp [List.filter_cons, hw, ih htl]

/-! ### The claims -/

/-- C1: for every room, `participantCount` stays in `{0,1,2}` under any
sequence of join/leave operations started from a well-formed server state, and
a `join_room` against a (non-expired) room that already has at least two
participants is rejected with the `Room is full` error and changes neither the
store nor the connection. -/
theorem claim_C1_participant_capacity :
    (∀ σ0 : ServerState, ServerInv σ0 → ∀ ops : List RoomOp,
        ∀ kv ∈ (runOps σ0 ops).store.chatRooms,
          kv.2.participantCount = 0 ∨ kv.2.participantCount = 1 ∨
          kv.2.participantCount = 2) ∧
    (∀ (s : MemStorage) (now : Time) (conn : Conn) (newPid roomId : EId)
        (nickname : String) (pk : Option String) (room : ChatRoom),
        alookup s.chatRooms roomId = some room →
        roomExpired room now = false →
        2 ≤ (getParticipants s roomId).length →
        handleJoinRoom s now conn newPid roomId nickname pk =
          (s, conn, [OutMsg.errorToSender "Room is full"])) := by
  constructor
  · intro σ0 h ops kv hkv
    obtain ⟨⟨_, _, hcount⟩, _⟩ := ServerInv_runOps ops h
    have := hcount kv hkv
    omega
  · intro s now conn newPid roomId nickname pk room hroom hexp hfull
    have h2 : (getParticipants s roomId).length ≥ 2 := hfull
    simp only [handleJoinRoom, hroom, hexp, Bool.false_eq_true, if_false, h2,
      if_true]

/-- C1 witness: three joins against a one-room server leave the room with two
participants, and a further join against the resulting full store is rejected
with `Room is full`. -/
theorem claim_C1_participant_capacity_witness :
    (∀ kv ∈ (runOps serverA
        [RoomOp.join 0 1 100 "a" none, RoomOp.join 1 2 100 "b" none,
         RoomOp.join 2 3 100 "c" none]).store.chatRooms,
        kv.2.participantCount = 0 ∨ kv.2.participantCount = 1 ∨
        kv.2.participantCount = 2) ∧
    handleJoinRoom storeFull 4 connFresh 99 100 "c" none =
      (storeFull, connFresh, [OutMsg.errorToSender "Room is full"]) :=
  ⟨claim_C1_participant_capacity.1 serverA (by decide)
      [RoomOp.join 0 1 100 "a" none, RoomOp.join 1 2 100 "b" none,
       RoomOp.join 2 3 100 "c" none],
   claim_C1_participant_capacity.2 storeFull 4 connFresh 99 100 "c" none
      roomFull (by decide) (by decide) (by decide)⟩

/-- C2: marking a view-once message viewed deletes it in the same step and
emits exactly one `message_deleted` event; afterwards it is absent from the
store and from the listing (which filters viewed view-once messages), and a
repeated call is a no-op emitting nothing. -/
theorem claim_C2_view_once_consumption
    (s : MemStorage) (mid : EId) (m : ChatMessage) (now : Time)
    (hnd : (akeys s.chatMessages).Nodup)
    (hids : ∀ kv ∈ s.chatMessages, kv.2.id = kv.1)
    (hm : alookup s.chatMessages mid = some m)
    (hvo : m.isViewOnce = true) :
    alookup (markMessageViewed s mid).1.chatMessages mid = none ∧
    (markMessageViewed s mid).2 =
      [StorageEvent.message_deleted mid m.roomId] ∧
    (∀ m2 ∈ listValidMessages (markMessageViewed s mid).1 m.roomId now,
        m2.id ≠ mid) ∧
    markMessageViewed (markMessageViewed s mid).1 mid =
      ((markMessageViewed s mid).1, []) := by
  have hgone : alookup (markMessageViewed s mid).1.chatMessages mid = none := by
    simp only [markMessageViewed, hm, hvo, if_true]
    exact alookup_aerase_self mid (nodup_akeys_aset _ _ hnd)
  refine ⟨hgone, ?_, ?_, ?_⟩
  · simp only [markMessageViewed, hm, hvo, if_true]
  · intro m2 hm2
    simp only [listValidMessages] at hm2
    have hmem : m2 ∈ getMessages (markMessageViewed s mid).1 m.roomId :=
      List.mem_of_mem_filter hm2
    simp only [getMessages, mem_sortByCreatedAt] at hmem
    have hmem2 : m2 ∈ (markMessageViewed s mid).1.chatMessages.map Prod.snd :=
      List.mem_of_mem_filter hmem
    obtain ⟨kv, hkv, hsnd⟩ := List.mem_map.mp hmem2
    simp only [markMessageViewed, hm, hvo, if_true] at hkv
    obtain ⟨hkv1, hkne⟩ := (mem_aerase (nodup_akeys_aset _ _ hnd)).mp hkv
    have hid : kv.2.id = kv.1 := by
      rcases (mem_aset hnd).mp hkv1 with ⟨hmem3, _⟩ | heq
      · exact hids kv hmem3
      · have hmid : m.id = mid := hids (mid, m) (alookup_some_mem hm)
        rw [heq]
        exact hmid
    rw [← hsnd, hid]
    exact hkne
  · have key : ∀ t : MemStorage, alookup t.chatMessages mid = none →
        markMessageViewed t mid = (t, []) := by
      intro t ht
      simp only [markMessageViewed, ht]
    exact key _ hgone

/-- C2 witness: the concrete view-once message 55 of `storeMsg` is deleted by
`markMessageViewed`, exactly one event is emitted, it disappears from the
listing, and a second call is a silent no-op. -/
theorem claim_C2_view_once_consumption_witness :
    alookup (markMessageViewed storeMsg 55).1.chatMessages 55 = none ∧
    (markMessageViewed storeMsg 55).2 =
      [StorageEvent.message_deleted 55 msgV.roomId] ∧
    (∀ m2 ∈ listValidMessages (markMessageViewed storeMsg 55).1 msgV.roomId 1,
        m2.id ≠ 55) ∧
    markMessageViewed (markMessageViewed storeMsg 55).1 55 =
      ((markMessageViewed storeMsg 55).1, []) :=
  claim_C2_view_once_consumption storeMsg 55 msgV 1 (by decide)
    (by decide) (by decide) (by decide)

/-- C3: `deleteChatRoom` cascades fully: afterwards the room is gone, no
message entry and no participant entry for it remains in the store, and the
list operations for that room id return empty results. -/
theorem claim_C3_cascade_delete (s : MemStorage) (id : EId)
    (hnd : (akeys s.chatRooms).Nodup) :
    alookup (deleteChatRoom s id).1.chatRooms id = none ∧
    (∀ kv ∈ (deleteChatRoom s id).1.chatMessages, kv.2.roomId ≠ id) ∧
    (∀ kv ∈ (deleteChatRoom s id).1.chatParticipants, kv.2.roomId ≠ id) ∧
    getMessages (deleteChatRoom s id).1 id = [] ∧
    getParticipants (deleteChatRoom s id).1 id = [] := by
  have hmsg : ∀ kv ∈ (deleteChatRoom s id).1.chatMessages, kv.2.roomId ≠ id := by
    intro kv hkv
    have := List.of_mem_filter hkv
    simpa using this
  have hpart : ∀ kv ∈ (deleteChatRoom s id).1.chatParticipants,
      kv.2.roomId ≠ id := by
    intro kv hkv
    have := List.of_mem_filter hkv
    simpa using this
  refine ⟨alookup_aerase_self id hnd, hmsg, hpart, ?_, ?_⟩
  · show sortByCreatedAt _ = []
    have h : ((deleteChatRoom s id).1.chatMessages.map Prod.snd).filter
        (fun m => m.roomId == id) = [] := by
      rw [List.filter_eq_nil_iff]
      intro a ha
      obtain ⟨kv, hkv, hsnd⟩ := List.mem_map.mp ha
      simp only [← hsnd]
      simpa using hmsg kv hkv
    rw [h]
    rfl
  · show ((deleteChatRoom s id).1.chatParticipants.map Prod.snd).filter
        (fun p => p.roomId == id) = []
    rw [List.filter_eq_nil_iff]
    intro a ha
    obtain ⟨kv, hkv, hsnd⟩ := List.mem_map.mp ha
    simp only [← hsnd]
    simpa using hpart kv hkv

/-- C3 witness: deleting room 100 from the populated store removes the room,
its message and both participants. -/
theorem claim_C3_cascade_delete_witness :
    alookup (deleteChatRoom storeMsg 100).1.chatRooms 100 = none ∧
    (∀ kv ∈ (deleteChatRoom storeMsg 100).1.chatMessages, kv.2.roomId ≠ 100) ∧
    (∀ kv ∈ (deleteChatRoom storeMsg 100).1.chatParticipants,
        kv.2.roomId ≠ 100) ∧
    getMessages (deleteChatRoom storeMsg 100).1 100 = [] ∧
    getParticipants (deleteChatRoom storeMsg 100).1 100 = [] :=
  claim_C3_cascade_delete storeMsg 100 (by decide)

/-- C4: `expiresAt` resolution precedence in `createMessage`: the message is
stamped `createdAt = now`; an explicit `expiresAt` wins; otherwise a room with
a truthy `defaultMessageTTLSeconds` yields `createdAt + TTL`; otherwise the
fallback is 60 s for view-once and 600 s for normal messages. -/
theorem claim_C4_expiry_resolution (s : MemStorage) (now : Time) (newId : EId)
    (ins : InsertChatMessage) :
    (createMessage s now newId ins).1.createdAt = now ∧
    (∀ e, ins.expiresAt = some e →
        (createMessage s now newId ins).1.expiresAt = some e) ∧
    (∀ room, ins.expiresAt = none →
        alookup s.chatRooms ins.roomId = some room →
        room.defaultMessageTTLSeconds ≠ 0 →
        (createMessage s now newId ins).1.expiresAt =
          some ((createMessage s now newId ins).1.createdAt +
            room.defaultMessageTTLSeconds * 1000)) ∧
    (ins.expiresAt = none →
        (alookup s.chatRooms ins.roomId = none ∨
          (∃ room, alookup s.chatRooms ins.roomId = some room ∧
            room.defaultMessageTTLSeconds = 0)) →
        (createMessage s now newId ins).1.expiresAt =
          some (now + (if ins.isViewOnce then 60 * 1000 else 10 * 60 * 1000))) := by
  refine ⟨rfl, ?_, ?_, ?_⟩
  · intro e he
    simp only [createMessage, he]
  · intro room hnone hroom httl
    simp only [createMessage, hnone, calculateExpiresAtForMessage, hroom, httl,
      if_true, ne_eq, not_false_eq_true]
  · intro hnone hcase
    rcases hcase with hmiss | ⟨room, hroom, httl⟩
    · simp only [createMessage, hnone, calculateExpiresAtForMessage, hmiss]
      by_cases hv : ins.isViewOnce <;> simp [hv]
    · simp only [createMessage, hnone, calculateExpiresAtForMessage, hroom, httl]
      by_cases hv : ins.isViewOnce <;> simp [hv]

/-- C4 witness: with no explicit expiry, room TTL 30 produces expiry at
`createdAt + 30 s`; with the room absent the normal fallback is 600 s; an
explicit expiry wins over everything. -/
theorem claim_C4_expiry_resolution_witness :
    (createMessage storeTTL30 0 77
        { roomId := 100, senderNickname := "a", content := "x",
          messageType := "text", encryptedData := none, isViewOnce := false,
          expiresAt := none }).1.expiresAt =
      some ((createMessage storeTTL30 0 77
        { roomId := 100, senderNickname := "a", content := "x",
          messageType := "text", encryptedData := none, isViewOnce := false,
          expiresAt := none }).1.createdAt + 30 * 1000) ∧
    (createMessage storeTTL30 0 78
        { roomId := 200, senderNickname := "a", content := "x",
          messageType := "text", encryptedData := none, isViewOnce := false,
          expiresAt := none }).1.expiresAt = some (0 + 10 * 60 * 1000) ∧
    (createMessage storeTTL30 0 79
        { roomId := 100, senderNickname := "a", content := "x",
          messageType := "text", encryptedData := none, isViewOnce := false,
          expiresAt := some 123 }).1.expiresAt = some 123 :=
  ⟨(claim_C4_expiry_resolution storeTTL30 0 77 _).2.2.1 roomTTL30 rfl
      (by decide) (by decide),
   (claim_C4_expiry_resolution storeTTL30 0 78 _).2.2.2 rfl
      (Or.inl (by decide)),
   (claim_C4_expiry_resolution storeTTL30 0 79 _).2.1 123 rfl⟩

/-- C5: `deleteMessage` is idempotent: deleting a present message removes it
and emits exactly one `message_deleted` event, and a second call on the
now-absent id is a no-op that emits nothing. -/
theorem claim_C5_delete_idempotent (s : MemStorage) (mid : EId)
    (m : ChatMessage) (hnd : (akeys s.chatMessages).Nodup)
    (hm : alookup s.chatMessages mid = some m) :
    (deleteMessage s mid).2 = [StorageEvent.message_deleted mid m.roomId] ∧
    alookup (deleteMessage s mid).1.chatMessages mid = none ∧
    deleteMessage (deleteMessage s mid).1 mid = ((deleteMessage s mid).1, []) := by
  have hgone : alookup (deleteMessage s mid).1.chatMessages mid = none := by
    simp only [deleteMessage, hm]
    exact alookup_aerase_self mid hnd
  refine ⟨by simp only [deleteMessage, hm], hgone, ?_⟩
  have key : ∀ t : MemStorage, alookup t.chatMessages mid = none →
      deleteMessage t mid = (t, []) := by
    intro t ht
    simp only [deleteMessage, ht]
  exact key _ hgone

/-- C5 witness: deleting message 55 emits one event; the second delete changes
nothing and emits nothing. -/
theorem claim_C5_delete_idempotent_witness :
    (deleteMessage storeMsg 55).2 =
      [StorageEvent.message_deleted 55 msgV.roomId] ∧
    alookup (deleteMessage storeMsg 55).1.chatMessages 55 = none ∧
    deleteMessage (deleteMessage storeMsg 55).1 55 =
      ((deleteMessage storeMsg 55).1, []) :=
  claim_C5_delete_idempotent storeMsg 55 msgV (by decide) (by decide)

/-- C6: leave-room lifecycle: in a full room (count 2), one leave keeps the
room with `participantCount = 1` and `isActive = false`; the remaining
participant's leave deletes the room from the store. -/
theorem claim_C6_leave_lifecycle
    (s : MemStorage) (rid pid1 pid2 : EId) (room : ChatRoom)
    (p1 p2 : ChatParticipant) (n1 n2 : Option String)
    (hndR : (akeys s.chatRooms).Nodup)
    (hroom : alookup s.chatRooms rid = some room)
    (hcount2 : room.participantCount = 2)
    (hp1 : alookup s.chatParticipants pid1 = some p1)
    (hp2 : alookup s.chatParticipants pid2 = some p2)
    (hp1r : p1.roomId = rid) (hp2r : p2.roomId = rid)
    (hne : pid2 ≠ pid1)
    (hc : countFor s.chatParticipants rid = 2) :
    alookup (handleLeaveRoom s ⟨some rid, some pid1, n1⟩).1.chatRooms rid =
      some { room with participantCount := 1, isActive := false } ∧
    countFor (handleLeaveRoom s ⟨some rid, some pid1, n1⟩).1.chatParticipants
      rid = 1 ∧
    alookup (handleLeaveRoom
        (handleLeaveRoom s ⟨some rid, some pid1, n1⟩).1
        ⟨some rid, some pid2, n2⟩).1.chatRooms rid = none := by
  have e1 : removeParticipant s pid1 =
      { s with chatParticipants := aerase s.chatParticipants pid1, chatRooms := aset s.chatRooms rid { room with participantCount := 1 } } := by
    simp only [removeParticipant, hp1, hp1r, hroom, hcount2]
    norm_num [jsOrInt]
  have c1 : countFor (aerase s.chatParticipants pid1) rid = 1 := by
    have h := countFor_aerase hp1 rid
    rw [hp1r] at h
    simp only [beq_self_eq_true, if_true] at h
    omega
  have e2 : handleLeaveRoom s ⟨some rid, some pid1, n1⟩ =
      ({ s with chatParticipants := aerase s.chatParticipants pid1, chatRooms := aset (aset s.chatRooms rid { room with participantCount := 1 }) rid { room with participantCount := 1, isActive := false } },
       ⟨some rid, some pid1, n1⟩, [OutMsg.user_left rid pid1 n1]) := by
    simp only [handleLeaveRoom, e1, length_getParticipants]
    simp only [c1]
    norm_num [updateChatRoomIsActive, alookup_aset_self]
  have hs1rooms :
      alookup (handleLeaveRoom s ⟨some rid, some pid1, n1⟩).1.chatRooms rid =
        some { room with participantCount := 1, isActive := false } := by
    rw [e2]
    exact alookup_aset_self _ _ _
  have hs1count :
      countFor (handleLeaveRoom s ⟨some rid, some pid1, n1⟩).1.chatParticipants
        rid = 1 := by
    rw [e2]
    exact c1
  refine ⟨hs1rooms, hs1count, ?_⟩
  rw [e2]
  have hp2a : alookup (aerase s.chatParticipants pid1) pid2 = some p2 := by
    rw [alookup_aerase_ne _ hne]
    exact hp2
  have e3 : removeParticipant { s with chatParticipants := aerase s.chatParticipants pid1, chatRooms := aset (aset s.chatRooms rid { room with participantCount := 1 }) rid { room with participantCount := 1, isActive := false } } pid2 =
      { s with chatParticipants := aerase (aerase s.chatParticipants pid1) pid2, chatRooms := aset (aset (aset s.chatRooms rid { room with participantCount := 1 }) rid { room with participantCount := 1, isActive := false }) rid { room with participantCount := 0, isActive := false } } := by
    simp only [removeParticipant, hp2a, hp2r, alookup_aset_self]
    norm_num [jsOrInt]
  have c2 : countFor (aerase (aerase s.chatParticipants pid1) pid2) rid = 0 := by
    have h := countFor_aerase hp2a rid
    rw [hp2r] at h
    simp only [beq_self_eq_true, if_true] at h
    omega
  simp only [handleLeaveRoom, e3, length_getParticipants]
  simp only [c2, if_true]
  show alookup (aerase (aset (aset (aset s.chatRooms rid { room with participantCount := 1 }) rid { room with participantCount := 1, isActive := false }) rid { room with participantCount := 0, isActive := false }) rid) rid = none
  exact alookup_aerase_self rid
    (nodup_akeys_aset _ _ (nodup_akeys_aset _ _ (nodup_akeys_aset _ _ hndR)))

/-- C6 witness: from the concrete full store, the first leave yields a partial
inactive room with one participant; the second leave removes the room. -/
theorem claim_C6_leave_lifecycle_witness :
    alookup (handleLeaveRoom storeFull ⟨some 100, some 1, some "a"⟩).1.chatRooms
      100 = some { roomFull with participantCount := 1, isActive := false } ∧
    countFor (handleLeaveRoom storeFull
      ⟨some 100, some 1, some "a"⟩).1.chatParticipants 100 = 1 ∧
    alookup (handleLeaveRoom
        (handleLeaveRoom storeFull ⟨some 100, some 1, some "a"⟩).1
        ⟨some 100, some 2, some "b"⟩).1.chatRooms 100 = none :=
  claim_C6_leave_lifecycle storeFull 100 1 2 roomFull partP1 partP2
    (some "a") (some "b") (by decide) (by decide) (by decide) (by decide)
    (by decide) (by decide) (by decide) (by decide) (by decide)

/-- C7 counterexample: a `join_room` against the expired room 7 is rejected
with `Room has expired`, but the room is *not* cascade-deleted: the state is
returned unchanged and the room is still present afterwards, refuting the
claimed deletion side effect. -/
theorem claim_C7_counterexample :
    (handleJoinRoom storeExp 10 connFresh 1 7 "bob" none).1 = storeExp ∧
    alookup (handleJoinRoom storeExp 10 connFresh 1 7 "bob" none).1.chatRooms
      7 = some roomExp ∧
    (handleJoinRoom storeExp 10 connFresh 1 7 "bob" none).2.2 =
      [OutMsg.errorToSender "Room has expired"] := by decide

/-- C7 (amended): a `join_room` for a room whose `expiresAt` is in the past is
rejected with the `Room has expired` error, and the store is left completely
unchanged — the WebSocket join path performs no cascade delete (only the HTTP
room-lookup route does). -/
theorem claim_C7_expired_join_rejected (s : MemStorage) (now : Time)
    (conn : Conn) (newPid roomId : EId) (nickname : String)
    (pk : Option String) (room : ChatRoom)
    (hroom : alookup s.chatRooms roomId = some room)
    (hexp : roomExpired room now = true) :
    handleJoinRoom s now conn newPid roomId nickname pk =
      (s, conn, [OutMsg.errorToSender "Room has expired"]) := by
  simp only [handleJoinRoom, hroom, hexp, if_true]

/-- C7 witness: the amended rejection at the concrete expired room. -/
theorem claim_C7_expired_join_rejected_witness :
    handleJoinRoom storeExp 10 connFresh 1 7 "bob" none =
      (storeExp, connFresh, [OutMsg.errorToSender "Room has expired"]) :=
  claim_C7_expired_join_rejected storeExp 10 connFresh 1 7 "bob" none roomExp
    (by decide) (by decide)

/-- C8 counterexample: cascade deletion emits no per-message events: deleting
room 100 removes message 55 from the store yet returns an empty event list,
refuting exactly-once emission on the cascade path. -/
theorem claim_C8_counterexample :
    alookup storeMsg.chatMessages 55 = some msgV ∧
    alookup (deleteChatRoom storeMsg 100).1.chatMessages 55 = none ∧
    (deleteChatRoom storeMsg 100).2 = [] := by decide

/-- C8 (amended): explicit deletion and view-once consumption of a present
message each emit exactly one `message_deleted` event, and deletion of an
absent message emits none; but cascade deletion (`deleteChatRoom`) emits no
events at all, even for the messages it removes. -/
theorem claim_C8_deletion_events (s : MemStorage) (mid : EId) (m : ChatMessage)
    (hm : alookup s.chatMessages mid = some m) :
    (deleteMessage s mid).2 = [StorageEvent.message_deleted mid m.roomId] ∧
    (m.isViewOnce = true →
      (markMessageViewed s mid).2 =
        [StorageEvent.message_deleted mid m.roomId]) ∧
    (∀ (t : MemStorage) (mid2 : EId), alookup t.chatMessages mid2 = none →
      (deleteMessage t mid2).2 = []) ∧
    (∀ (t : MemStorage) (rid : EId), (deleteChatRoom t rid).2 = []) := by
  refine ⟨by simp only [deleteMessage, hm], ?_, ?_, fun t rid => rfl⟩
  · intro hvo
    simp only [markMessageViewed, hm, hvo, if_true]
  · intro t mid2 ht
    simp only [deleteMessage, ht]

/-- C8 witness: the amended emission behaviour at the concrete store. -/
theorem claim_C8_deletion_events_witness :
    (deleteMessage storeMsg 55).2 =
      [StorageEvent.message_deleted 55 msgV.roomId] ∧
    (msgV.isViewOnce = true →
      (markMessageViewed storeMsg 55).2 =
        [StorageEvent.message_deleted 55 msgV.roomId]) ∧
    (∀ (t : MemStorage) (mid2 : EId), alookup t.chatMessages mid2 = none →
      (deleteMessage t mid2).2 = []) ∧
    (∀ (t : MemStorage) (rid : EId), (deleteChatRoom t rid).2 = []) :=
  claim_C8_deletion_events storeMsg 55 msgV (by decide)

/-- C9 counterexample: after an explicit leave, the connection's fields are
never cleared, so the transport-close trigger runs the whole leave sequence
again and broadcasts a second `user_left` — the second trigger is not a no-op,
refuting the exactly-once departure sequence. -/
theorem claim_C9_counterexample :
    (handleLeaveRoom storeFull connP1).2.1 = connP1 ∧
    (handleLeaveRoom (handleLeaveRoom storeFull connP1).1
        (handleLeaveRoom storeFull connP1).2.1).2.2 =
      [OutMsg.user_left 100 1 (some "a")] ∧
    (handleLeaveRoom (handleLeaveRoom storeFull connP1).1
        (handleLeaveRoom storeFull connP1).2.1).2.2 ≠ [] := by decide

/-- C9 (amended): the participant record is removed at most once
(`removeParticipant` on an absent id leaves the store unchanged), but a second
leave trigger for the same connection is not a no-op: since the association is
never cleared, it broadcasts `user_left` again (and re-runs the lifecycle
check), leaving the participant table unchanged. -/
theorem claim_C9_second_trigger_rebroadcasts (s : MemStorage) (rid pid : EId)
    (n : Option String)
    (habsent : alookup s.chatParticipants pid = none) :
    removeParticipant s pid = s ∧
    (handleLeaveRoom s ⟨some rid, some pid, n⟩).2.2 =
      [OutMsg.user_left rid pid n] ∧
    (handleLeaveRoom s ⟨some rid, some pid, n⟩).1.chatParticipants =
      s.chatParticipants := by
  have hrm : removeParticipant s pid = s := by
    simp only [removeParticipant, habsent]
  refine ⟨hrm, ?_, ?_⟩
  · simp only [handleLeaveRoom, hrm]
    by_cases h0 : (getParticipants s rid).length = 0
    · rw [if_pos h0]
    · rw [if_neg h0]
      by_cases h1 : (getParticipants s rid).length = 1
      · rw [if_pos h1]
      · rw [if_neg h1]
  · simp only [handleLeaveRoom, hrm]
    by_cases h0 : (getParticipants s rid).length = 0
    · rw [if_pos h0]
      show s.chatParticipants.filter _ = s.chatParticipants
      apply filter_roomId_eq_self
      rw [← length_getParticipants]
      exact h0
    · rw [if_neg h0]
      by_cases h1 : (getParticipants s rid).length = 1
      · rw [if_pos h1]
        show (updateChatRoomIsActive s rid false).chatParticipants =
          s.chatParticipants
        exact updateChatRoomIsActive_chatParticipants _ _ _
      · rw [if_neg h1]

/-- C9 witness: the amended behaviour at a concrete store with a stale
association (participant 1 no longer present). -/
theorem claim_C9_second_trigger_rebroadcasts_witness :
    removeParticipant storeA 1 = storeA ∧
    (handleLeaveRoom storeA ⟨some 100, some 1, some "a"⟩).2.2 =
      [OutMsg.user_left 100 1 (some "a")] ∧
    (handleLeaveRoom storeA ⟨some 100, some 1, some "a"⟩).1.chatParticipants =
      storeA.chatParticipants :=
  claim_C9_second_trigger_rebroadcasts storeA 100 1 (some "a") (by decide)

/-- C10: `removeParticipant` never drives a count below zero: an absent id
changes nothing; a present participant is removed and its room's count becomes
`max 0 ((count || 1) - 1)`, which is non-negative; and any sequence of
`removeParticipant` calls preserves non-negativity of every room's count. -/
theorem claim_C10_remove_participant_floor (s : MemStorage) (pid : EId) :
    (alookup s.chatParticipants pid = none → removeParticipant s pid = s) ∧
    (∀ p, alookup s.chatParticipants pid = some p →
      ((akeys s.chatParticipants).Nodup →
        alookup (removeParticipant s pid).chatParticipants pid = none) ∧
      ∀ room, alookup s.chatRooms p.roomId = some room →
        alookup (removeParticipant s pid).chatRooms p.roomId =
          some { room with participantCount := max 0 (jsOrInt room.participantCount 1 - 1) } ∧
        (0 : Int) ≤ max 0 (jsOrInt room.participantCount 1 - 1)) ∧
    (∀ pids : List EId,
      (∀ kv ∈ s.chatRooms, 0 ≤ kv.2.participantCount) →
      ∀ kv ∈ (pids.foldl removeParticipant s).chatRooms,
        0 ≤ kv.2.participantCount) := by
  have hstep : ∀ (t : MemStorage) (q : EId),
      (∀ kv ∈ t.chatRooms, 0 ≤ kv.2.participantCount) →
      ∀ kv ∈ (removeParticipant t q).chatRooms, 0 ≤ kv.2.participantCount := by
    intro t q h kv hkv
    rcases hq : alookup t.chatParticipants q with _ | p
    · simp only [removeParticipant, hq] at hkv
      exact h kv hkv
    · rcases hr : alookup t.chatRooms p.roomId with _ | room
      · simp only [removeParticipant, hq, hr] at hkv
        exact h kv hkv
      · simp only [removeParticipant, hq, hr] at hkv
        rcases mem_aset_weak hkv with h1 | h1
        · exact h kv h1
        · rw [h1]
          exact le_max_left _ _
  refine ⟨?_, ?_, ?_⟩
  · intro h
    simp only [removeParticipant, h]
  · intro p hp
    constructor
    · intro hnd
      rcases hr : alookup s.chatRooms p.roomId with _ | room <;>
        simp only [removeParticipant, hp, hr] <;>
        exact alookup_aerase_self pid hnd
    · intro room hr
      simp only [removeParticipant, hp, hr]
      exact ⟨alookup_aset_self _ _ _, le_max_left _ _⟩
  · intro pids
    induction pids generalizing s with
    | nil => intro h kv hkv; exact h kv hkv
    | cons q rest ih =>
        intro h kv hkv
        exact ih (removeParticipant s q) (hstep s q h) kv hkv

/-- C10 witness: removing an absent id is a no-op; removing participant 9 from
a room whose count field is already 0 floors the count at 0. -/
theorem claim_C10_remove_participant_floor_witness :
    (alookup storeFloor.chatParticipants 99 = none →
      removeParticipant storeFloor 99 = storeFloor) ∧
    ((akeys storeFloor.chatParticipants).Nodup →
      alookup (removeParticipant storeFloor 9).chatParticipants 9 = none) ∧
    alookup (removeParticipant storeFloor 9).chatRooms 5 =
      some { roomZero with participantCount := max 0 (jsOrInt roomZero.participantCount 1 - 1) } ∧
    (∀ kv ∈ ([9, 9, 42].foldl removeParticipant storeFloor).chatRooms,
      0 ≤ kv.2.participantCount) :=
  ⟨(claim_C10_remove_participant_floor storeFloor 99).1,
   ((claim_C10_remove_participant_floor storeFloor 9).2.1 partFloor
      (by decide)).1,
   (((claim_C10_remove_participant_floor storeFloor 9).2.1 partFloor
      (by decide)).2 roomZero (by decide)).1,
   (claim_C10_remove_participant_floor storeFloor 9).2.2 [9, 9, 42]
      (by decide)⟩

end KChat
